import Mathlib

/-!
# quality_scan: the batch driver of `src/qulity_scan/main.cpp`

A shallow embedding of the functions of `main.cpp` and the properties of its
sampler, scanner, marshaller, pipeline loop and CSV writer.

Conventions of the embedding.
* `std::vector<T>` is `List T`; `std::string` is `List Char`, one `Char` per `char`.
* `int` is `Int` within `[-2^31, 2^31)`; `size_t` is `Nat` below `2^64`; the
  conversion between them is written out (`toSizeT`).
* A `double` is the rational number it denotes; the rounding of a product to the
  nearest `double` is a parameter `fl`.
* A function that can throw returns `Except`.
-/

namespace QualityScan

/-! ## Bounded sampler (`main`, lines 128-143) -/

/-- The library call `std::swap(v[j], v[k])` for two positions of a vector; positions
outside the vector, which the sampler never passes, leave the vector as it is. -/
def swap {α : Type} (v : List α) (j k : Nat) : List α :=
  match v[j]?, v[k]? with
  | some a, some b => (v.set j b).set k a
  | _, _ => v

/-- The conversion of an `int` to `size_t` (64 bits), applied by the usual arithmetic
conversions when `numProcessed` is compared with `images.size()`. -/
def toSizeT (n : Int) : Nat := (n % 2 ^ 64).toNat

/-- The loop of lines 137-142: while `images.size() > numProcessed`, swap the element at
the drawn index with `images.back()` and `pop_back()`. `draw i` is the value that
`dist(rng)` returns in iteration `i`, where `dist` is
`uniform_int_distribution(0, images.size()-1)`. -/
def sampleLoop {α : Type} (draw : Nat → Nat) (numProcessed : Int) (i : Nat)
    (images : List α) : List α :=
  if toSizeT numProcessed < images.length then
    sampleLoop draw numProcessed (i + 1) (swap images (draw i) (images.length - 1)).dropLast
  else images
termination_by images.length
decreasing_by
  simp_wf
  have h1 : (swap images (draw i) (images.length - 1)).length = images.length := by
    unfold swap
    split <;> simp
  omega

/-- The selection step of `main` (lines 128-143): the content of `images` after the
`if`/`else`. The first branch only assigns `numProcessed`, which is not read again. -/
def selectImages {α : Type} (draw : Nat → Nat) (images : List α) (numProcessed : Int) :
    List α :=
  if images.length ≤ toSizeT numProcessed ∨ numProcessed ≤ 0 then images
  else sampleLoop draw numProcessed 0 images

/-- All sequences of indices the loop can draw in `k` iterations from a pool of `m`
elements: the first index is below `m`, the next below `m - 1`, and so on. -/
def indexSeqs : Nat → Nat → List (List Nat)
  | _, 0 => [[]]
  | m, k + 1 => (List.range m).flatMap fun j => (indexSeqs (m - 1) k).map fun s => j :: s

/-- The draws of a run whose `i`-th draw is the `i`-th entry of `s`. -/
def drawOf (s : List Nat) (i : Nat) : Nat := s.getD i 0

/-! ## Corpus scanner (`checkFileExt`, `scanDir`, lines 27-28 and 70-106) -/

/-- The view `s.c_str()` gives to a C string function: the characters before the first
NUL character. -/
def c_str (s : List Char) : List Char := s.takeWhile fun c => c ≠ '\x00'

/-- The library function `std::strstr(hay, needle)` on two C strings: the position of the
first occurrence of `needle` in `hay`, or `none` for the null pointer. -/
def strstr : List Char → List Char → Option Nat
  | [], needle => if needle.isPrefixOf [] then some 0 else none
  | c :: hay, needle =>
    if needle.isPrefixOf (c :: hay) then some 0 else (strstr hay needle).map fun p => p + 1

/-- The table `FileExt` of lines 27-28, entry by entry. -/
def FileExt : List (List Char) :=
  [".png".toList, ".bmp".toList, ".tif".toList, ".tiff".toList, ".jpg".toList,
    ".jpeg".toList, ".ppm".toList,
    ".PNG".toList, ".BMP".toList, ".TIF".toList, ".TIFFF".toList, ".JPG".toList,
    ".JPEG".toList, ".PPM".toList]

/-- The function `checkFileExt` (lines 70-77): the loop over `FileExt` returns `true` at
the first extension that `strstr` finds in the name. -/
def checkFileExt (filename : List Char) : Bool :=
  FileExt.any fun ext => (strstr (c_str filename) (c_str ext)).isSome

/-- One entry of a directory listing, the part of `WIN32_FIND_DATA` that `scanDir` reads:
the attribute bitmask and the NUL-terminated name array. -/
structure FindData where
  dwFileAttributes : Nat
  cFileName : List Char

/-- The Win32 constant `FILE_ATTRIBUTE_DIRECTORY`, the directory bit `0x10` of the
attribute bitmask. -/
def FILE_ATTRIBUTE_DIRECTORY : Nat := 0x10

/-- The `do ... while (FindNextFile(...))` loop of `scanDir` (lines 92-100) over the entries
the enumeration yields, with the vector `filenames` as accumulator. -/
def scanLoop : List FindData → List (List Char) → List (List Char)
  | [], filenames => filenames
  | d :: rest, filenames =>
    if d.dwFileAttributes ≠ FILE_ATTRIBUTE_DIRECTORY then
      if checkFileExt (c_str d.cFileName) then
        scanLoop rest (filenames ++ [c_str d.cFileName])
      else scanLoop rest filenames
    else scanLoop rest filenames

/-- The function `scanDir` (lines 79-106) on the entries that `FindFirstFile` and
`FindNextFile` yield for the directory; an invalid handle (no such directory, nothing
found) is the empty listing. -/
def scanDir (entries : List FindData) : List (List Char) := scanLoop entries []

/-- The extensions as the specification lists them: seven lower-case extensions and the
exact upper-case variant of each. -/
def specExtensions : List (List Char) :=
  [".png".toList, ".bmp".toList, ".tif".toList, ".tiff".toList, ".jpg".toList,
    ".jpeg".toList, ".ppm".toList,
    ".PNG".toList, ".BMP".toList, ".TIF".toList, ".TIFF".toList, ".JPG".toList,
    ".JPEG".toList, ".PPM".toList]

/-- An attribute bitmask has the directory bit set. -/
def isDirectory (attrs : Nat) : Bool := attrs &&& FILE_ATTRIBUTE_DIRECTORY ≠ 0

/-! ## The engine's context object (`pbio::Context`)

The SDK is a collaborator outside the repository. Its context is embedded as a tree of
values with the operations `main.cpp` calls, each with the behaviour the SDK documents:
a read through a `const` context or by index raises when the entry is absent, a read
through a non-`const` context yields an empty (null) entry for an absent key, and a typed
getter raises when the entry holds another type. -/

/-- The two kinds of exception `main` catches (lines 207-211): `pbio::Error` and
`std::exception`. -/
inductive Error where
  | pbio (what : String)
  | std (what : String)
  deriving DecidableEq, Repr

/-- A `pbio::Context`: empty, a scalar, a data pointer with the number of bytes copied,
an array, or a map from keys to contexts (in insertion order). -/
inductive Context where
  | null
  | bool (b : Bool)
  | long (n : Int)
  | double (x : ℚ)
  | string (s : String)
  | dataPtr (data : List Nat) (copy_sz : Nat)
  | array (xs : List Context)
  | map (kvs : List (String × Context))

namespace Context

/-- `ctx[key]` on a `const` context: the entry, or an exception when there is none. -/
def getByKey : Context → String → Except Error Context
  | map kvs, key =>
    match kvs.lookup key with
    | some v => .ok v
    | none => .error (.pbio "no such key")
  | _, _ => .error (.pbio "not a map")

/-- `ctx[key]` on a non-`const` context, read: the entry, an empty context when the key is
absent, an exception when `ctx` is a scalar or an array. -/
def getOrInsertByKey : Context → String → Except Error Context
  | map kvs, key => .ok ((kvs.lookup key).getD null)
  | null, _ => .ok null
  | _, _ => .error (.pbio "not a map")

/-- `ctx[index]`: the element of an array, or an exception. -/
def getByIndex : Context → Nat → Except Error Context
  | array xs, i =>
    match xs[i]? with
    | some v => .ok v
    | none => .error (.pbio "index out of range")
  | _, _ => .error (.pbio "not an array")

/-- `ctx.getDouble()`. -/
def getDouble : Context → Except Error ℚ
  | double x => .ok x
  | _ => .error (.pbio "not a double")

/-- `ctx.getBool()`. -/
def getBool : Context → Except Error Bool
  | bool b => .ok b
  | _ => .error (.pbio "not a bool")

/-- `ctx.getLong()`. -/
def getLong : Context → Except Error Int
  | long n => .ok n
  | _ => .error (.pbio "not a long")

/-- `ctx.size()`: the number of elements of an array or map, `0` for the rest. -/
def size : Context → Nat
  | array xs => xs.length
  | map kvs => kvs.length
  | _ => 0

/-- The entries of a map after `key` is assigned `v`: replaced in place, or added last. -/
def insertKV : List (String × Context) → String → Context → List (String × Context)
  | [], key, v => [(key, v)]
  | (k, w) :: rest, key, v =>
    if k = key then (key, v) :: rest else (k, w) :: insertKV rest key v

/-- `ctx[key] = v`: an empty context becomes a map. -/
def setKey : Context → String → Context → Except Error Context
  | map kvs, key, v => .ok (map (insertKV kvs key v))
  | null, key, v => .ok (map [(key, v)])
  | _, _, _ => .error (.pbio "not a map")

/-- `ctx.push_back(v)`: an empty context becomes an array. -/
def push_back : Context → Context → Except Error Context
  | array xs, v => .ok (array (xs ++ [v]))
  | null, v => .ok (array [v])
  | _, _ => .error (.pbio "not an array")

/-- `ctx[key].push_back(v)`. -/
def pushBackAt (ctx : Context) (key : String) (v : Context) : Except Error Context := do
  let entry ← ctx.getOrInsertByKey key
  let entry ← entry.push_back v
  ctx.setKey key entry

end Context

/-! ## Tensor marshaller (`CvTypeToStr`, `convertMat2BSM`, lines 25 and 30-43) -/

/-- The part of a `cv::Mat` that `convertMat2BSM` reads: `size[0..dims-1]`, the depth
code, the channel count, `isContinuous()` and the data. -/
structure Mat where
  size : List Int
  depth : Int
  channels : Int
  isContinuous : Bool
  data : List Nat

/-- The OpenCV depth codes. -/
def CV_8U : Int := 0
def CV_8S : Int := 1
def CV_16U : Int := 2
def CV_16S : Int := 3
def CV_32S : Int := 4
def CV_32F : Int := 5
def CV_64F : Int := 6
def CV_16F : Int := 7

/-- The table `CvTypeToStr` of line 25. -/
def CvTypeToStr : List (Int × String) :=
  [(CV_8U, "uint8_t"), (CV_8S, "int8_t"), (CV_16U, "uint16_t"), (CV_16S, "int16_t"),
    (CV_32S, "int32_t"), (CV_32F, "float"), (CV_64F, "double")]

/-- `CvTypeToStr.at(depth)`: `std::map::at` throws `std::out_of_range` for a missing
key. -/
def CvTypeToStr_at (depth : Int) : Except Error String :=
  match CvTypeToStr.lookup depth with
  | some tag => .ok tag
  | none => .error (.std "map::at")

namespace Mat

/-- `img.dims`. -/
def dims (img : Mat) : Nat := img.size.length

/-- `img.clone()`: the same image in continuous memory. -/
def clone (img : Mat) : Mat := { img with isContinuous := true }

/-- `img.total()`: the number of array elements. -/
def total (img : Mat) : Nat := (img.size.map Int.toNat).prod

/-- `img.elemSize()`: bytes per element, the channel count times the bytes of one
channel. -/
def elemSize (img : Mat) : Nat :=
  img.channels.toNat *
    (if img.depth = CV_8U ∨ img.depth = CV_8S then 1
     else if img.depth = CV_16U ∨ img.depth = CV_16S ∨ img.depth = CV_16F then 2
     else if img.depth = CV_32S ∨ img.depth = CV_32F then 4
     else 8)

end Mat

/-- The loop of lines 39-40: `bsmCtx["shape"].push_back(input_img.size[i])` for each
dimension in turn. -/
def pushShape : List Int → Context → Except Error Context
  | [], bsmCtx => .ok bsmCtx
  | s :: rest, bsmCtx => do
    let bsmCtx ← bsmCtx.pushBackAt "shape" (.long s)
    pushShape rest bsmCtx

/-- The function `convertMat2BSM` (lines 30-43); the result is the context `bsmCtx` after
the call, or the exception thrown. -/
def convertMat2BSM (bsmCtx : Context) (img : Mat) (copy : Bool) : Except Error Context := do
  let input_img := if img.isContinuous then img else img.clone
  let copy_sz := if copy || !img.isContinuous then input_img.total * input_img.elemSize else 0
  let bsmCtx ← bsmCtx.setKey "format" (.string "NDARRAY")
  let bsmCtx ← bsmCtx.setKey "blob" (.dataPtr input_img.data copy_sz)
  let dtype ← CvTypeToStr_at input_img.depth
  let bsmCtx ← bsmCtx.setKey "dtype" (.string dtype)
  let bsmCtx ← pushShape input_img.size bsmCtx
  bsmCtx.pushBackAt "shape" (.long input_img.channels)

/-- The entry `shape` of a map holds the array `xs`, or is absent or empty when `xs` is
empty. -/
def ShapeHolds (kvs : List (String × Context)) (xs : List Context) : Prop :=
  kvs.lookup "shape" = some (.array xs) ∨
    ((kvs.lookup "shape" = none ∨ kvs.lookup "shape" = some .null) ∧ xs = [])

/-! ## Result flattener (`toCSV`, lines 45-68, and the header of lines 145-165) -/

/-- The floating-point side of the host: `fl` rounds an exact product to the nearest
`double`, `showDouble` is the text `operator<<` writes for a `double`. -/
structure FloatEnv where
  fl : ℚ → ℚ
  showDouble : ℚ → List Char

/-- The conversion `static_cast<int>(x)`: truncation toward zero (defined by the language
for values inside the range of `int`). -/
def castInt (x : ℚ) : Int := x.num.tdiv x.den

/-- The text `operator<<` writes for an `int` or a `long`: the decimal digits, after a
minus sign when negative. -/
def showInt (z : Int) : List Char :=
  if z < 0 then '-' :: Nat.toDigits 10 z.natAbs else Nat.toDigits 10 z.natAbs

/-- The text written for `(b ? 1 : 0)`. -/
def showFlag (b : Bool) : List Char := showInt (if b then 1 else 0)

/-- The text written for `static_cast<int>(x * 100)`. -/
def showPercent (env : FloatEnv) (x : ℚ) : List Char := showInt (castInt (env.fl (x * 100)))

/-- The content of a `std::ofstream`: the characters written so far. -/
abbrev Stream := List Char

/-- A computation that writes to the stream and may throw; what was written before the
exception stays written. -/
def CsvM (α : Type) : Type := Stream → Except Error α × Stream

namespace CsvM

/-- Sequencing: the second computation runs on the stream the first one left, unless the
first one threw. -/
def bind {α β : Type} (m : CsvM α) (f : α → CsvM β) : CsvM β := fun csv =>
  match m csv with
  | (.ok a, csv1) => f a csv1
  | (.error e, csv1) => (.error e, csv1)

instance : Monad CsvM where
  pure a := fun csv => (.ok a, csv)
  bind := bind

/-- The insertion `csv << text`. -/
def put (text : List Char) : CsvM Unit := fun csv => (.ok (), csv ++ text)

/-- The evaluation of an operand that reads the context and may throw. -/
def eval {α : Type} (r : Except Error α) : CsvM α := fun csv => (r, csv)

end CsvM

open CsvM in
/-- The function `toCSV` (lines 45-68). The operands of the `<<` chain are evaluated and
written from left to right, each operand after the insertion to its left (the sequencing
rule of C++17 for `<<`); `std::endl` writes the newline. The orders allowed before C++17
are covered by `toCSVOrdered` below; all orders write the same row when every read
succeeds. -/
def toCSV (env : FloatEnv) (ioData : Context) : CsvM Unit := do
  let obj ← eval (ioData.getByKey "objects")
  let quality ← eval (do (← obj.getByIndex 0).getOrInsertByKey "quality")
  put (env.showDouble
    (← eval (do (← (← obj.getByIndex 0).getOrInsertByKey "confidence").getDouble)))
  put [',']
  put (showPercent env (← eval (do (← quality.getOrInsertByKey "total_score").getDouble)))
  put [',']
  put (showFlag (← eval (do (← quality.getOrInsertByKey "is_sharp").getBool)))
  put [',']
  put (showPercent env (← eval (do (← quality.getOrInsertByKey "sharpness_score").getDouble)))
  put [',']
  put (showFlag (← eval (do (← quality.getOrInsertByKey "is_evenly_illuminated").getBool)))
  put [',']
  put (showFlag (← eval (do (← quality.getOrInsertByKey "no_flare").getBool)))
  put [',']
  put (showFlag (← eval (do (← quality.getOrInsertByKey "is_left_eye_opened").getBool)))
  put [',']
  put (showFlag (← eval (do (← quality.getOrInsertByKey "is_right_eye_opened").getBool)))
  put [',']
  put (showFlag (← eval (do (← quality.getOrInsertByKey "is_rotation_acceptable").getBool)))
  put [',']
  put (showFlag (← eval (do (← quality.getOrInsertByKey "not_masked").getBool)))
  put [',']
  put (showFlag (← eval (do (← quality.getOrInsertByKey "is_neutral_emotion").getBool)))
  put [',']
  put (showFlag
    (← eval (do (← quality.getOrInsertByKey "is_eyes_distance_acceptable").getBool)))
  put [',']
  put (showInt (← eval (do (← quality.getOrInsertByKey "eyes_distance").getLong)))
  put [',']
  put (showFlag (← eval (do (← quality.getOrInsertByKey "is_margins_acceptable").getBool)))
  put [',']
  put (showFlag (← eval (do (← quality.getOrInsertByKey "is_not_noisy").getBool)))
  put [',']
  put (showFlag (← eval (do (← quality.getOrInsertByKey "has_watermark").getBool)))
  put [',']
  put (showPercent env
    (← eval (do (← quality.getOrInsertByKey "dynamic_range_score").getDouble)))
  put [',']
  put (showFlag
    (← eval (do (← quality.getOrInsertByKey "is_dynamic_range_acceptable").getBool)))
  put ['\n']

/-- The header line of lines 146-165, piece by piece as the string literals are written,
ended by `std::endl`. -/
def csvHeader : List Char :=
  "Confidence,".toList ++ "totalScore,".toList ++ "isSharp,".toList ++
    "sharpnessScore,".toList ++ "isEvenlyIlluminated,".toList ++
    "illuminationScore,".toList ++ "noFlare,".toList ++ "isLeftEyeOpened,".toList ++
    "isRightEyeOpened,".toList ++ "isRotationAcceptable,".toList ++ "notMasked,".toList ++
    "isNeutralEmotion,".toList ++ "isEyesDistanceAcceptable,".toList ++
    "eyesDistance,".toList ++ "isMarginsAcceptable,".toList ++ "isNotNoisy,".toList ++
    "hasWatermark,".toList ++ "dynamicRangeScore,".toList ++
    "isDynamicRangeAcceptable".toList ++ ['\n']

/-- The values of a line of comma-separated values (the line without its newline). -/
def splitCommas : List Char → List (List Char)
  | [] => [[]]
  | c :: rest =>
    if c = ',' then [] :: splitCommas rest
    else
      match splitCommas rest with
      | [] => [[c]]
      | v :: vs => (c :: v) :: vs

/-- The 18 values `toCSV` reads from the first detected object, in the order it writes
them. -/
structure QualityRecord where
  confidence : ℚ
  total_score : ℚ
  is_sharp : Bool
  sharpness_score : ℚ
  is_evenly_illuminated : Bool
  no_flare : Bool
  is_left_eye_opened : Bool
  is_right_eye_opened : Bool
  is_rotation_acceptable : Bool
  not_masked : Bool
  is_neutral_emotion : Bool
  is_eyes_distance_acceptable : Bool
  eyes_distance : Int
  is_margins_acceptable : Bool
  is_not_noisy : Bool
  has_watermark : Bool
  dynamic_range_score : ℚ
  is_dynamic_range_acceptable : Bool

/-- The context's first detected object carries all the fields `toCSV` reads, with the
values of `r`, each of the type its getter expects. -/
def Carries (ioData : Context) (r : QualityRecord) : Prop :=
  ∃ objs rest qkvs,
    ioData.getByKey "objects" = .ok (.array (.map objs :: rest)) ∧
    objs.lookup "quality" = some (.map qkvs) ∧
    objs.lookup "confidence" = some (.double r.confidence) ∧
    qkvs.lookup "total_score" = some (.double r.total_score) ∧
    qkvs.lookup "is_sharp" = some (.bool r.is_sharp) ∧
    qkvs.lookup "sharpness_score" = some (.double r.sharpness_score) ∧
    qkvs.lookup "is_evenly_illuminated" = some (.bool r.is_evenly_illuminated) ∧
    qkvs.lookup "no_flare" = some (.bool r.no_flare) ∧
    qkvs.lookup "is_left_eye_opened" = some (.bool r.is_left_eye_opened) ∧
    qkvs.lookup "is_right_eye_opened" = some (.bool r.is_right_eye_opened) ∧
    qkvs.lookup "is_rotation_acceptable" = some (.bool r.is_rotation_acceptable) ∧
    qkvs.lookup "not_masked" = some (.bool r.not_masked) ∧
    qkvs.lookup "is_neutral_emotion" = some (.bool r.is_neutral_emotion) ∧
    qkvs.lookup "is_eyes_distance_acceptable" = some (.bool r.is_eyes_distance_acceptable) ∧
    qkvs.lookup "eyes_distance" = some (.long r.eyes_distance) ∧
    qkvs.lookup "is_margins_acceptable" = some (.bool r.is_margins_acceptable) ∧
    qkvs.lookup "is_not_noisy" = some (.bool r.is_not_noisy) ∧
    qkvs.lookup "has_watermark" = some (.bool r.has_watermark) ∧
    qkvs.lookup "dynamic_range_score" = some (.double r.dynamic_range_score) ∧
    qkvs.lookup "is_dynamic_range_acceptable" = some (.bool r.is_dynamic_range_acceptable)

/-- The 18 texts of the row for the values of `r`, in the order of the columns. -/
def rowCells (env : FloatEnv) (r : QualityRecord) : List (List Char) :=
  [env.showDouble r.confidence, showPercent env r.total_score, showFlag r.is_sharp,
    showPercent env r.sharpness_score, showFlag r.is_evenly_illuminated,
    showFlag r.no_flare, showFlag r.is_left_eye_opened, showFlag r.is_right_eye_opened,
    showFlag r.is_rotation_acceptable, showFlag r.not_masked, showFlag r.is_neutral_emotion,
    showFlag r.is_eyes_distance_acceptable, showInt r.eyes_distance,
    showFlag r.is_margins_acceptable, showFlag r.is_not_noisy, showFlag r.has_watermark,
    showPercent env r.dynamic_range_score, showFlag r.is_dynamic_range_acceptable]

/-- A context whose first detected object holds the values of `r` and nothing else. -/
def contextOf (r : QualityRecord) : Context :=
  .map [("objects", .array [.map [
    ("confidence", .double r.confidence),
    ("quality", .map [
      ("total_score", .double r.total_score), ("is_sharp", .bool r.is_sharp),
      ("sharpness_score", .double r.sharpness_score),
      ("is_evenly_illuminated", .bool r.is_evenly_illuminated),
      ("no_flare", .bool r.no_flare), ("is_left_eye_opened", .bool r.is_left_eye_opened),
      ("is_right_eye_opened", .bool r.is_right_eye_opened),
      ("is_rotation_acceptable", .bool r.is_rotation_acceptable),
      ("not_masked", .bool r.not_masked), ("is_neutral_emotion", .bool r.is_neutral_emotion),
      ("is_eyes_distance_acceptable", .bool r.is_eyes_distance_acceptable),
      ("eyes_distance", .long r.eyes_distance),
      ("is_margins_acceptable", .bool r.is_margins_acceptable),
      ("is_not_noisy", .bool r.is_not_noisy), ("has_watermark", .bool r.has_watermark),
      ("dynamic_range_score", .double r.dynamic_range_score),
      ("is_dynamic_range_acceptable", .bool r.is_dynamic_range_acceptable)])]])]

/-- The 18 operands of the `<<` chain of `toCSV` in the order they are evaluated: each
one reads a field and gives the text to write, or the exception of the read. -/
def cellReads (env : FloatEnv) (obj quality : Context) : List (Except Error (List Char)) :=
  [Except.map env.showDouble
      (do (← (← obj.getByIndex 0).getOrInsertByKey "confidence").getDouble),
    Except.map (showPercent env) (do (← quality.getOrInsertByKey "total_score").getDouble),
    Except.map showFlag (do (← quality.getOrInsertByKey "is_sharp").getBool),
    Except.map (showPercent env)
      (do (← quality.getOrInsertByKey "sharpness_score").getDouble),
    Except.map showFlag (do (← quality.getOrInsertByKey "is_evenly_illuminated").getBool),
    Except.map showFlag (do (← quality.getOrInsertByKey "no_flare").getBool),
    Except.map showFlag (do (← quality.getOrInsertByKey "is_left_eye_opened").getBool),
    Except.map showFlag (do (← quality.getOrInsertByKey "is_right_eye_opened").getBool),
    Except.map showFlag (do (← quality.getOrInsertByKey "is_rotation_acceptable").getBool),
    Except.map showFlag (do (← quality.getOrInsertByKey "not_masked").getBool),
    Except.map showFlag (do (← quality.getOrInsertByKey "is_neutral_emotion").getBool),
    Except.map showFlag
      (do (← quality.getOrInsertByKey "is_eyes_distance_acceptable").getBool),
    Except.map showInt (do (← quality.getOrInsertByKey "eyes_distance").getLong),
    Except.map showFlag (do (← quality.getOrInsertByKey "is_margins_acceptable").getBool),
    Except.map showFlag (do (← quality.getOrInsertByKey "is_not_noisy").getBool),
    Except.map showFlag (do (← quality.getOrInsertByKey "has_watermark").getBool),
    Except.map (showPercent env)
      (do (← quality.getOrInsertByKey "dynamic_range_score").getDouble),
    Except.map showFlag
      (do (← quality.getOrInsertByKey "is_dynamic_range_acceptable").getBool)]

open CsvM in
/-- Writing a row operand by operand: evaluate, write, then a comma, or the newline after
the last one. -/
def writeCells : List (Except Error (List Char)) → CsvM Unit
  | [] => put ['\n']
  | [c] => do
    put (← eval c)
    put ['\n']
  | c :: d :: rest => do
    put (← eval c)
    put [',']
    writeCells (d :: rest)

/-! ## Pipeline loop (`main`, lines 185-206) -/

/-- The three processing blocks of the engine (`detectorBlock`, `fitterBlock`,
`qualityBlock`): each is called with the context and either leaves it changed or
throws. -/
structure Engine where
  detectorBlock : Context → Except Error Context
  fitterBlock : Context → Except Error Context
  qualityBlock : Context → Except Error Context

/-- A call made by the loop body, with the context it is made on. -/
inductive Call where
  | detector (ioData : Context)
  | fitter (ioData : Context)
  | quality (ioData : Context)
  | toCSV (ioData : Context)

/-- What one pass of the loop body leaves: the calls made in order, the content of
`result.csv`, and whether the pass ended normally or threw. -/
structure Pass where
  calls : List Call
  csv : Stream
  outcome : Except Error Unit

/-- The context `ioData` of lines 193-196 for the decoded image: a fresh context whose
entry `image` is the descriptor `convertMat2BSM` fills. -/
def imageContext (input_image : Mat) : Except Error Context := do
  let imgCtx ← convertMat2BSM .null input_image false
  Context.setKey .null "image" imgCtx

/-- The body of the loop of `main` from line 193 on (lines 193-205), for the image
`input_image` that `imread` and `cvtColor` produced. -/
def processImage (env : FloatEnv) (engine : Engine) (input_image : Mat) (csv : Stream) :
    Pass :=
  match imageContext input_image with
  | .error e => ⟨[], csv, .error e⟩
  | .ok ioData =>
    match engine.detectorBlock ioData with
    | .error e => ⟨[.detector ioData], csv, .error e⟩
    | .ok detected =>
      match detected.getOrInsertByKey "objects" with
      | .error e => ⟨[.detector ioData], csv, .error e⟩
      | .ok objects =>
        if objects.size > 0 then
          match engine.fitterBlock detected with
          | .error e => ⟨[.detector ioData, .fitter detected], csv, .error e⟩
          | .ok fitted =>
            match engine.qualityBlock fitted with
            | .error e =>
              ⟨[.detector ioData, .fitter detected, .quality fitted], csv, .error e⟩
            | .ok assessed =>
              ⟨[.detector ioData, .fitter detected, .quality fitted, .toCSV assessed],
                (toCSV env assessed csv).2, (toCSV env assessed csv).1⟩
        else ⟨[.detector ioData], csv, .ok ()⟩

/-! ## Example values -/

/-- An example host: the products formed are exact, and a `double` of integral value is
written as its integer digits (as the default stream format does below `10^6`). -/
def exampleEnv : FloatEnv := ⟨id, fun x => showInt (castInt x)⟩

/-- An example record: confidence 1, scores 0.5, 0.75 and 1, eyes 64 pixels apart. -/
def exampleRecord : QualityRecord :=
  ⟨1, 1 / 2, true, 3 / 4, true, true, true, true, true, true, true, true, 64, true, true,
    false, 1, true⟩

/-- An example decoded image: 2 rows, 2 columns, 3 channels of 8 bits. -/
def exampleImage : Mat := ⟨[2, 2], CV_8U, 3, true, [0, 0, 0, 0, 0, 0, 0, 0, 0, 0, 0, 0]⟩

/-- An example engine that finds one face and whose fitting stage throws. -/
def fitterFails : Engine where
  detectorBlock := fun ioData => ioData.setKey "objects" (.array [.map []])
  fitterBlock := fun _ => .error (.pbio "fitter failed")
  qualityBlock := fun ioData => .ok ioData

/-- An example engine that finds one face and fills in the values of `exampleRecord`. -/
def exampleEngine : Engine where
  detectorBlock := fun ioData => ioData.setKey "objects" (.array [.map []])
  fitterBlock := fun ioData => .ok ioData
  qualityBlock := fun _ => .ok (contextOf exampleRecord)

/-- An example engine that finds no face. -/
def noFace : Engine where
  detectorBlock := fun ioData => ioData.setKey "objects" (.array [])
  fitterBlock := fun ioData => .ok ioData
  qualityBlock := fun ioData => .ok ioData

/-! ## The order of evaluation of the `<<` chain of `toCSV`

The sources fix no language standard. From C++17 on, each operand of the chain is
evaluated after the insertion to its left, which is the order `toCSV` above follows. Before
C++17 the order is unspecified: the insertions happen in the order of the chain, and each
operand is evaluated at some point before the insertion that writes it, possibly before
insertions to its left. `toCSVOrdered` is the chain under any such order. -/

theorem length_swap {α : Type} (v : List α) (j k : Nat) : (swap v j k).length = v.length := by
  unfold swap
  split <;> simp

theorem swap_eq {α : Type} (v : List α) (j k : Nat) (hj : j < v.length) (hk : k < v.length) :
    swap v j k = (v.set j v[k]).set k v[j] := by
  simp [swap, List.getElem?_eq_getElem hj, List.getElem?_eq_getElem hk]

theorem swap_last_split {α : Type} (l1 l2 : List α) (a b : α) :
    swap (l1 ++ a :: (l2 ++ [b])) l1.length ((l1 ++ a :: (l2 ++ [b])).length - 1)
      = l1 ++ b :: (l2 ++ [a]) := by
  have hk : (l1 ++ a :: (l2 ++ [b])).length - 1 = l1.length + (l2.length + 1) := by
    simp
  rw [hk, swap_eq _ _ _ (by simp) (by simp)]
  simp [List.getElem_append_right, List.set_append]

theorem set_getElem_same {α : Type} : ∀ (v : List α) (j : Nat) (hj : j < v.length),
    v.set j v[j] = v
  | [], _, hj => by simp at hj
  | _ :: _, 0, _ => by simp
  | _ :: t, j + 1, hj => by
    simp only [List.set_cons_succ, List.getElem_cons_succ]
    rw [set_getElem_same t j (by simpa using hj)]

/-- One iteration removes exactly the element at the drawn index: what is left, with
that element put back, is a rearrangement of the pool. -/
theorem swap_last_perm {α : Type} (v : List α) (j : Nat) (hj : j < v.length) :
    ((swap v j (v.length - 1)).dropLast ++ [v[j]]).Perm v := by
  rcases Nat.lt_or_ge j (v.length - 1) with h | h
  · obtain ⟨l1, a, r, rfl, hl1⟩ : ∃ l1 a r, v = l1 ++ a :: r ∧ l1.length = j :=
      ⟨v.take j, v[j], v.drop (j + 1), by simp, by simp; omega⟩
    have hr : r ≠ [] := by
      intro hr
      subst hr
      simp at h
      omega
    obtain ⟨l2, b, rfl⟩ : ∃ l2 b, r = l2 ++ [b] :=
      ⟨r.dropLast, r.getLast hr, (List.dropLast_append_getLast hr).symm⟩
    subst hl1
    rw [swap_last_split]
    have hd : (l1 ++ b :: (l2 ++ [a])).dropLast = l1 ++ b :: l2 := by
      rw [show l1 ++ b :: (l2 ++ [a]) = (l1 ++ b :: l2) ++ [a] by rw [List.append_assoc]; rfl]
      exact List.dropLast_concat
    have hg : (l1 ++ a :: (l2 ++ [b]))[l1.length] = a := by
      rw [List.getElem_append_right (Nat.le_refl _)]
      simp
    rw [hd, hg, List.append_assoc]
    refine List.Perm.append_left l1 ?_
    have h1 : (b :: l2 ++ [a]).Perm (a :: (b :: l2)) := List.perm_append_comm
    have h2 : (a :: (b :: l2)).Perm (a :: (l2 ++ [b])) :=
      List.Perm.cons a (@List.perm_append_comm _ [b] l2)
    exact h1.trans h2
  · have hjl : j = v.length - 1 := by omega
    subst hjl
    have hv : v ≠ [] := by
      intro hv
      subst hv
      simp at hj
    rw [swap_eq _ _ _ hj hj, List.set_set, set_getElem_same v _ hj,
      ← List.getLast_eq_getElem v hv, List.dropLast_append_getLast hv]

theorem sampleLoop_done {α : Type} (draw : Nat → Nat) (n : Int) (i : Nat) (v : List α)
    (h : v.length ≤ toSizeT n) : sampleLoop draw n i v = v := by
  rw [sampleLoop, if_neg (by omega)]

theorem sampleLoop_step {α : Type} (draw : Nat → Nat) (n : Int) (i : Nat) (v : List α)
    (h : toSizeT n < v.length) :
    sampleLoop draw n i v
      = sampleLoop draw n (i + 1) (swap v (draw i) (v.length - 1)).dropLast := by
  rw [sampleLoop, if_pos h]

/-- The loop, entered with `k` elements too many, ends with `toSizeT n` elements, all
distinct, all from the pool it was entered with. -/
theorem sampleLoop_spec {α : Type} (draw : Nat → Nat) (n : Int) :
    ∀ (k : Nat) (v : List α) (i : Nat), v.length = toSizeT n + k → v.Nodup →
      (∀ t, t < k → draw (i + t) < v.length - t) →
      (sampleLoop draw n i v).length = toSizeT n ∧ (sampleLoop draw n i v).Nodup ∧
        ∀ x ∈ sampleLoop draw n i v, x ∈ v := by
  intro k
  induction k with
  | zero =>
    intro v i hlen hnd _
    rw [sampleLoop_done draw n i v (by omega)]
    exact ⟨by omega, hnd, fun _ hx => hx⟩
  | succ k ih =>
    intro v i hlen hnd hdraw
    have hj : draw i < v.length := by
      have := hdraw 0 (by omega)
      simpa using this
    have hperm := swap_last_perm v (draw i) hj
    have hnd2 : ((swap v (draw i) (v.length - 1)).dropLast ++ [v[draw i]]).Nodup :=
      hperm.nodup_iff.mpr hnd
    rw [sampleLoop_step draw n i v (by omega)]
    obtain ⟨h1, h2, h3⟩ := ih (swap v (draw i) (v.length - 1)).dropLast (i + 1)
      (by rw [List.length_dropLast, length_swap]; omega)
      (List.Nodup.of_append_left hnd2)
      (by
        intro t ht
        have := hdraw (t + 1) (by omega)
        rw [List.length_dropLast, length_swap]
        have e : i + 1 + t = i + (t + 1) := by omega
        rw [e]
        omega)
    refine ⟨h1, h2, fun x hx => ?_⟩
    exact hperm.subset (List.mem_append_left _ (h3 x hx))

theorem toSizeT_of_int {n : Int} (h0 : 0 ≤ n) (h1 : n < 2 ^ 31) : toSizeT n = n.toNat := by
  unfold toSizeT
  rw [Int.emod_eq_of_lt h0 (by omega)]

theorem sampleLoop_shift {α : Type} (draw : Nat → Nat) (n : Int) :
    ∀ (k : Nat) (v : List α) (i : Nat), v.length ≤ toSizeT n + k →
      sampleLoop draw n (i + 1) v = sampleLoop (fun t => draw (t + 1)) n i v := by
  intro k
  induction k with
  | zero =>
    intro v i hlen
    rw [sampleLoop_done _ n _ v (by omega), sampleLoop_done _ n _ v (by omega)]
  | succ k ih =>
    intro v i hlen
    rcases Nat.lt_or_ge (toSizeT n) v.length with h | h
    · rw [sampleLoop_step _ n _ v h, sampleLoop_step _ n _ v h]
      exact ih _ _ (by rw [List.length_dropLast, length_swap]; omega)
    · rw [sampleLoop_done _ n _ v h, sampleLoop_done _ n _ v h]

theorem sampleLoop_cons {α : Type} (n : Int) (j : Nat) (s : List Nat) (v : List α)
    (h : toSizeT n < v.length) :
    sampleLoop (drawOf (j :: s)) n 0 v
      = sampleLoop (drawOf s) n 0 (swap v j (v.length - 1)).dropLast := by
  rw [sampleLoop_step _ n _ v h]
  have : drawOf (j :: s) 0 = j := rfl
  rw [this]
  exact sampleLoop_shift (drawOf (j :: s)) n v.length _ 0
    (by rw [List.length_dropLast, length_swap]; omega)

theorem toFinset_swap_last {α : Type} [DecidableEq α] (v : List α) (j : Nat)
    (hj : j < v.length) (hnd : v.Nodup) :
    (swap v j (v.length - 1)).dropLast.toFinset = v.toFinset.erase v[j] := by
  have hperm := swap_last_perm v j hj
  have hnd2 := hperm.nodup_iff.mpr hnd
  have hnot : v[j] ∉ (swap v j (v.length - 1)).dropLast := by
    intro hmem
    have := (List.nodup_append.mp hnd2).2.2
    exact this hmem (List.mem_singleton_self _)
  ext x
  simp only [List.mem_toFinset, Finset.mem_erase]
  constructor
  · intro hx
    refine ⟨fun e => hnot (e ▸ hx), hperm.subset (List.mem_append_left _ hx)⟩
  · rintro ⟨hne, hx⟩
    have := hperm.symm.subset hx
    rcases List.mem_append.mp this with h | h
    · exact h
    · exact absurd (List.mem_singleton.mp h) hne

theorem sum_map_ite_const {α : Type} (q : α → Bool) (c : Nat) (l : List α) :
    (l.map fun a => if q a then c else 0).sum = c * l.countP q := by
  induction l with
  | nil => simp
  | cons a t ih =>
    rw [List.map_cons, List.sum_cons, ih, List.countP_cons]
    cases q a <;> simp [Nat.mul_add, Nat.add_comm]

theorem countP_mem_finset {α : Type} [DecidableEq α] (v : List α) (S : Finset α)
    (hnd : v.Nodup) (hS : S ⊆ v.toFinset) : v.countP (fun a => decide (a ∈ S)) = S.card := by
  rw [List.countP_eq_length_filter, ← List.toFinset_card_of_nodup (hnd.filter _)]
  congr 1
  ext x
  simp only [List.toFinset_filter, Finset.mem_filter, List.mem_toFinset, decide_eq_true_eq]
  exact ⟨fun h => h.2, fun h => ⟨List.mem_toFinset.mp (hS h), h⟩⟩

theorem countP_not_mem_finset {α : Type} [DecidableEq α] (v : List α) (S : Finset α)
    (hnd : v.Nodup) (hS : S ⊆ v.toFinset) :
    v.countP (fun a => decide (a ∉ S)) = v.length - S.card := by
  have h1 := List.length_eq_countP_add_countP (fun a => decide (a ∈ S)) v
  rw [countP_mem_finset v S hnd hS] at h1
  have h2 : v.countP (fun a => decide (a ∉ S))
      = v.countP (fun a => decide (¬ (decide (a ∈ S)) = true)) := by
    congr 1
    funext a
    simp
  rw [h2]
  omega

theorem sampleLoop_count {α : Type} [DecidableEq α] (n : Int) :
    ∀ (k : Nat) (v : List α) (S : Finset α), v.Nodup → v.length = toSizeT n + k →
      (indexSeqs v.length k).countP
          (fun s => decide ((sampleLoop (drawOf s) n 0 v).toFinset = S))
        = if S ⊆ v.toFinset ∧ S.card = toSizeT n then k.factorial else 0 := by
  intro k
  induction k with
  | zero =>
    intro v S hnd hlen
    have hcard : v.toFinset.card = toSizeT n := by
      rw [List.toFinset_card_of_nodup hnd]; omega
    simp only [indexSeqs, List.countP_cons, List.countP_nil, Nat.zero_add, Nat.factorial_zero]
    rw [sampleLoop_done _ n 0 v (by omega)]
    by_cases h : v.toFinset = S
    · subst h
      simp [hcard]
    · have : ¬ (S ⊆ v.toFinset ∧ S.card = toSizeT n) := by
        rintro ⟨h1, h2⟩
        exact h (Finset.eq_of_subset_of_card_le h1 (by omega)).symm
      simp [h, this]
  | succ k ih =>
    intro v S hnd hlen
    have hgo : toSizeT n < v.length := by omega
    rw [indexSeqs, List.countP_flatMap]
    have hmap : (List.range v.length).map
          (List.countP (fun s => decide ((sampleLoop (drawOf s) n 0 v).toFinset = S)) ∘
            fun j => (indexSeqs (v.length - 1) k).map fun s => j :: s)
        = v.map fun a =>
            if decide (S ⊆ v.toFinset ∧ S.card = toSizeT n ∧ a ∉ S) then k.factorial else 0 := by
      apply List.ext_getElem
      · simp
      · intro j h1 h2
        have hj : j < v.length := by simpa using h1
        have hperm := swap_last_perm v j hj
        have hnd2 := (List.Nodup.of_append_left (hperm.nodup_iff.mpr hnd))
        have hl : (swap v j (v.length - 1)).dropLast.length = v.length - 1 := by
          rw [List.length_dropLast, length_swap]
        have := ih (swap v j (v.length - 1)).dropLast S hnd2 (by rw [hl]; omega)
        rw [hl, toFinset_swap_last v j hj hnd] at this
        simp only [List.getElem_map, List.getElem_range, Function.comp, List.countP_map]
        have hfun : ((fun s => decide ((sampleLoop (drawOf s) n 0 v).toFinset = S)) ∘
              fun s => j :: s)
            = fun s => decide
                ((sampleLoop (drawOf s) n 0 (swap v j (v.length - 1)).dropLast).toFinset = S) := by
          funext s
          simp only [Function.comp, sampleLoop_cons n j s v hgo]
        rw [hfun, this]
        have hiff : (S ⊆ v.toFinset.erase v[j] ∧ S.card = toSizeT n)
            ↔ (S ⊆ v.toFinset ∧ S.card = toSizeT n ∧ v[j] ∉ S) := by
          rw [Finset.subset_erase]
          tauto
        simp only [hiff, decide_eq_true_eq]
    rw [hmap]
    by_cases hS : S ⊆ v.toFinset ∧ S.card = toSizeT n
    · have hfun : (fun a => if decide (S ⊆ v.toFinset ∧ S.card = toSizeT n ∧ a ∉ S)
            then k.factorial else 0)
          = fun a => if decide (a ∉ S) then k.factorial else 0 := by
        funext a
        simp [hS.1, hS.2]
      rw [hfun, sum_map_ite_const, countP_not_mem_finset v S hnd hS.1, if_pos hS, hS.2, hlen,
        Nat.factorial_succ]
      have : toSizeT n + (k + 1) - toSizeT n = k + 1 := by omega
      rw [this, Nat.mul_comm]
    · have hfun : (fun a => if decide (S ⊆ v.toFinset ∧ S.card = toSizeT n ∧ a ∉ S)
            then k.factorial else 0)
          = fun _ => 0 := by
        funext a
        have : ¬ (S ⊆ v.toFinset ∧ S.card = toSizeT n ∧ a ∉ S) := fun h => hS ⟨h.1, h.2.1⟩
        simp [this]
      rw [hfun, if_neg hS]
      simp

theorem length_indexSeqs : ∀ (k m : Nat), (indexSeqs m k).length = m.descFactorial k := by
  intro k
  induction k with
  | zero => intro m; simp [indexSeqs]
  | succ k ih =>
    intro m
    rw [indexSeqs, List.length_flatMap]
    have hconst : (List.length ∘ fun j => (indexSeqs (m - 1) k).map fun s => j :: s)
        = fun _ => (m - 1).descFactorial k := by
      funext j
      simp [ih]
    rw [hconst, List.map_const', List.sum_replicate, List.length_range, smul_eq_mul]
    cases m with
    | zero => simp
    | succ m => rw [Nat.succ_descFactorial_succ, Nat.add_sub_cancel]

theorem mem_indexSeqs : ∀ (k m : Nat) (s : List Nat),
    s ∈ indexSeqs m k ↔ s.length = k ∧ ∀ i, i < k → s.getD i 0 < m - i := by
  intro k
  induction k with
  | zero =>
    intro m s
    simp [indexSeqs]
  | succ k ih =>
    intro m s
    simp only [indexSeqs, List.mem_flatMap, List.mem_range, List.mem_map]
    constructor
    · rintro ⟨j, hj, t, ht, rfl⟩
      obtain ⟨h1, h2⟩ := (ih (m - 1) t).mp ht
      refine ⟨by simp [h1], fun i hi => ?_⟩
      cases i with
      | zero => simpa using hj
      | succ i =>
        have := h2 i (by omega)
        simp only [List.getD_cons_succ]
        omega
    · rintro ⟨h1, h2⟩
      cases s with
      | nil => simp at h1
      | cons j t =>
        refine ⟨j, by simpa using h2 0 (by omega), t, (ih (m - 1) t).mpr ⟨by simpa using h1, ?_⟩,
          rfl⟩
        intro i hi
        have := h2 (i + 1) (by omega)
        simp only [List.getD_cons_succ] at this
        omega

theorem nodup_indexSeqs : ∀ (k m : Nat), (indexSeqs m k).Nodup := by
  intro k
  induction k with
  | zero => intro m; simp [indexSeqs]
  | succ k ih =>
    intro m
    rw [indexSeqs, List.nodup_flatMap]
    refine ⟨fun j _ => (ih (m - 1)).map (fun a b h => (List.cons.inj h).2), ?_⟩
    refine (List.nodup_range m).pairwise_of_forall_ne ?_
    intro a _ b _ hab
    simp only [Function.onFun, List.disjoint_left, List.mem_map]
    rintro s ⟨t, _, rfl⟩ ⟨u, _, hu⟩
    exact hab (List.cons.inj hu).1.symm

/-! ## Theorems on the sampler -/

/-- C1, sampler boundary: when the requested count `n` (an `int`) is `<= 0` or at least
the number `M` of candidates, the selection step of `main` returns the candidate list
itself, unchanged and in its order, for every behaviour `draw` of the random number
generator. -/
theorem selectImages_boundary {α : Type} (draw : Nat → Nat) (images : List α) (n : Int)
    (hint : n < 2 ^ 31) (h : n ≤ 0 ∨ (images.length : Int) ≤ n) :
    selectImages draw images n = images := by
  unfold selectImages
  split
  · rfl
  · rename_i hc
    exfalso
    apply hc
    rcases h with h | h
    · exact Or.inr h
    · rcases Int.lt_or_le 0 n with hp | hp
      · left
        rw [toSizeT_of_int (le_of_lt hp) hint]
        omega
      · exact Or.inr hp

theorem selectImages_boundary_witness :
    ((7 : Int) < 2 ^ 31 ∧ ((7 : Int) ≤ 0 ∨ ((["a", "b", "c"].length : Nat) : Int) ≤ 7)) ∧
      selectImages (fun _ => 1) ["a", "b", "c"] 7 = ["a", "b", "c"] :=
  ⟨⟨by decide, Or.inr (by decide)⟩,
    selectImages_boundary (fun _ => 1) ["a", "b", "c"] 7 (by decide) (Or.inr (by decide))⟩

/-- C2, sampler correctness: for pairwise distinct candidates, a requested count `n` with
`0 < n < M` and draws that are in range (the `i`-th draw is below `M - i`, the size of the
pool at that iteration), the loop ends and leaves exactly `n` elements, all distinct, each
one an element of the candidate list. -/
theorem selectImages_correct {α : Type} (draw : Nat → Nat) (images : List α) (n : Int)
    (hpos : 0 < n) (hlt : n < (images.length : Int)) (hint : n < 2 ^ 31)
    (hnd : images.Nodup)
    (hdraw : ∀ i, i < images.length - n.toNat → draw i < images.length - i) :
    (selectImages draw images n).length = n.toNat ∧ (selectImages draw images n).Nodup ∧
      ∀ x ∈ selectImages draw images n, x ∈ images := by
  have hsz : toSizeT n = n.toNat := toSizeT_of_int (le_of_lt hpos) hint
  have hsel : selectImages draw images n = sampleLoop draw n 0 images := by
    unfold selectImages
    rw [if_neg]
    rw [hsz]
    omega
  rw [hsel]
  have := sampleLoop_spec draw n (images.length - n.toNat) images 0 (by rw [hsz]; omega) hnd
    (by
      intro t ht
      simpa using hdraw t ht)
  rw [hsz] at this
  exact this

theorem selectImages_correct_witness :
    (selectImages (fun _ => 0) ["a", "b", "c", "d", "e"] 2).length = (2 : Int).toNat ∧
      (selectImages (fun _ => 0) ["a", "b", "c", "d", "e"] 2).Nodup ∧
      ∀ x ∈ selectImages (fun _ => 0) ["a", "b", "c", "d", "e"] 2,
        x ∈ ["a", "b", "c", "d", "e"] :=
  selectImages_correct (fun _ => 0) ["a", "b", "c", "d", "e"] 2 (by decide) (by decide)
    (by decide) (by decide) (fun i hi => by
      have : i < 3 := by simpa using hi
      simp
      omega)

/-- C3, sampler uniformity as a count: for `M` pairwise distinct candidates and `0 < n < M`,
the index sequences the loop can draw are the `M * (M-1) * ... * (n+1)` lists of
`indexSeqs M (M-n)` (each list once, and exactly the lists whose `i`-th entry is below
`M - i`), and every `n`-element subset `S` of the candidates is the set of the final
result for exactly `(M-n)!` of them. -/
theorem selectImages_uniform_count {α : Type} [DecidableEq α] (images : List α) (n : Int)
    (hpos : 0 < n) (hlt : n < (images.length : Int)) (hint : n < 2 ^ 31)
    (hnd : images.Nodup) (S : Finset α) (hS : S ⊆ images.toFinset)
    (hcard : S.card = n.toNat) :
    (indexSeqs images.length (images.length - n.toNat)).countP
        (fun s => decide ((selectImages (drawOf s) images n).toFinset = S))
      = (images.length - n.toNat).factorial ∧
    (indexSeqs images.length (images.length - n.toNat)).length
      = images.length.descFactorial (images.length - n.toNat) ∧
    (indexSeqs images.length (images.length - n.toNat)).Nodup ∧
    ∀ s, s ∈ indexSeqs images.length (images.length - n.toNat) ↔
      s.length = images.length - n.toNat ∧
        ∀ i, i < images.length - n.toNat → drawOf s i < images.length - i := by
  have hsz : toSizeT n = n.toNat := toSizeT_of_int (le_of_lt hpos) hint
  have hsel : ∀ s, selectImages (drawOf s) images n = sampleLoop (drawOf s) n 0 images := by
    intro s
    unfold selectImages
    rw [if_neg]
    rw [hsz]
    omega
  refine ⟨?_, length_indexSeqs _ _, nodup_indexSeqs _ _, fun s => mem_indexSeqs _ _ s⟩
  simp only [hsel]
  rw [sampleLoop_count n (images.length - n.toNat) images S hnd (by rw [hsz]; omega),
    if_pos ⟨hS, by rw [hsz]; exact hcard⟩]

theorem selectImages_uniform_count_witness :
    (indexSeqs ["a", "b", "c"].length (["a", "b", "c"].length - (1 : Int).toNat)).countP
        (fun s => decide ((selectImages (drawOf s) ["a", "b", "c"] 1).toFinset = {"b"}))
      = (["a", "b", "c"].length - (1 : Int).toNat).factorial :=
  (selectImages_uniform_count ["a", "b", "c"] 1 (by decide) (by decide) (by decide)
    (by decide) {"b"} (by decide) (by decide)).1

/-! ### Lemmas on the scanner -/

theorem strstr_isSome_iff (needle : List Char) :
    ∀ hay : List Char, (strstr hay needle).isSome = true ↔ needle <:+: hay
  | [] => by
    cases needle <;> simp [strstr, List.isPrefixOf]
  | c :: hay => by
    rw [strstr, List.infix_cons_iff, ← strstr_isSome_iff needle hay]
    by_cases h : needle.isPrefixOf (c :: hay) = true
    · simp [h, List.isPrefixOf_iff_prefix.mp h]
    · have h2 : ¬ needle <+: c :: hay := fun hp => h (List.isPrefixOf_iff_prefix.mpr hp)
      simp [h, h2]

theorem c_str_of_no_nul (s : List Char) (h : '\x00' ∉ s) : c_str s = s := by
  unfold c_str
  rw [List.takeWhile_eq_self_iff]
  intro x hx
  have : x ≠ '\x00' := fun e => h (e ▸ hx)
  simpa using this

theorem checkFileExt_table (filename : List Char) (h : '\x00' ∉ filename) :
    checkFileExt filename = true ↔ ∃ ext ∈ FileExt, ext <:+: filename := by
  unfold checkFileExt
  rw [List.any_eq_true, c_str_of_no_nul filename h]
  constructor
  · rintro ⟨ext, hmem, hx⟩
    refine ⟨ext, hmem, ?_⟩
    have hc : c_str ext = ext := by
      simp only [FileExt, List.mem_cons, List.mem_singleton, List.not_mem_nil, or_false] at hmem
      rcases hmem with h | h | h | h | h | h | h | h | h | h | h | h | h | h <;> subst h <;> decide
    rw [hc] at hx
    exact (strstr_isSome_iff ext filename).mp hx
  · rintro ⟨ext, hmem, hx⟩
    refine ⟨ext, hmem, ?_⟩
    have hc : c_str ext = ext := by
      simp only [FileExt, List.mem_cons, List.mem_singleton, List.not_mem_nil, or_false] at hmem
      rcases hmem with h | h | h | h | h | h | h | h | h | h | h | h | h | h <;> subst h <;> decide
    rw [hc]
    exact (strstr_isSome_iff ext filename).mpr hx

/-! ## Theorems on the scanner -/

/-- C4, scanner filtering: for every file name (a string without NUL character),
`checkFileExt` returns `true` exactly when the name contains, at any position, one of the
seven extensions `.png .bmp .tif .tiff .jpg .jpeg .ppm` or the exact upper-case variant of
one of them. Of `a.png`, `b.txt`, `c.JPG` and `d` it accepts `a.png` and `c.JPG` only, so a
directory of these four plain files (attributes `0x20`) is scanned to `a.png`, `c.JPG`;
the match is case-sensitive (`x.Png` is refused). -/
theorem checkFileExt_iff (filename : List Char) (h : '\x00' ∉ filename) :
    (checkFileExt filename = true ↔ ∃ ext ∈ specExtensions, ext <:+: filename) ∧
      checkFileExt "a.png".toList = true ∧ checkFileExt "b.txt".toList = false ∧
      checkFileExt "c.JPG".toList = true ∧ checkFileExt "d".toList = false ∧
      checkFileExt "x.Png".toList = false ∧
      scanDir [⟨0x20, "a.png".toList⟩, ⟨0x20, "b.txt".toList⟩, ⟨0x20, "c.JPG".toList⟩,
          ⟨0x20, "d".toList⟩]
        = ["a.png".toList, "c.JPG".toList] := by
  refine ⟨?_, by decide, by decide, by decide, by decide, by decide, by decide⟩
  rw [checkFileExt_table filename h]
  have h3 : ".TIF".toList <:+: ".TIFFF".toList := by decide
  have h4 : ".TIF".toList <:+: ".TIFF".toList := by decide
  constructor
  · rintro ⟨ext, hmem, hx⟩
    simp only [FileExt, List.mem_cons, List.mem_singleton, List.not_mem_nil, or_false] at hmem
    rcases hmem with e | e | e | e | e | e | e | e | e | e | e | e | e | e
    all_goals first
      | exact ⟨ext, by subst e; decide, hx⟩
      | exact ⟨".TIF".toList, by decide, h3.trans (e ▸ hx)⟩
  · rintro ⟨ext, hmem, hx⟩
    simp only [specExtensions, List.mem_cons, List.mem_singleton, List.not_mem_nil,
      or_false] at hmem
    rcases hmem with e | e | e | e | e | e | e | e | e | e | e | e | e | e
    all_goals first
      | exact ⟨ext, by subst e; decide, hx⟩
      | exact ⟨".TIF".toList, by decide, h4.trans (e ▸ hx)⟩

theorem checkFileExt_iff_witness :
    (checkFileExt "scan.tiff".toList = true ↔
      ∃ ext ∈ specExtensions, ext <:+: "scan.tiff".toList) :=
  (checkFileExt_iff "scan.tiff".toList (by decide)).1

/-- C5, at the failing input: a directory entry named `pics.png` whose attributes are
`FILE_ATTRIBUTE_DIRECTORY | FILE_ATTRIBUTE_READONLY` (`0x11`) has the directory bit set and
is returned by `scanDir`, because line 93 compares the whole bitmask with `!=`; the same
entry with the bitmask `0x10` alone is left out. -/
theorem scanDir_returns_directory :
    isDirectory 0x11 = true ∧
      scanDir [⟨0x11, "pics.png".toList⟩] = ["pics.png".toList] ∧
      scanDir [⟨0x10, "pics.png".toList⟩] = [] := by
  refine ⟨by decide, by decide, by decide⟩

/-! ### Lemmas on the marshaller -/

theorem lookup_insertKV_self (key : String) (v : Context) :
    ∀ kvs : List (String × Context), (Context.insertKV kvs key v).lookup key = some v
  | [] => by simp [Context.insertKV, List.lookup]
  | (k, w) :: rest => by
    by_cases h : k = key
    · simp [Context.insertKV, h, List.lookup]
    · have hb : (key == k) = false := by simpa using fun e => h e.symm
      simp [Context.insertKV, h, List.lookup, hb, lookup_insertKV_self key v rest]

theorem lookup_insertKV_other (key other : String) (v : Context) (hne : other ≠ key) :
    ∀ kvs : List (String × Context),
      (Context.insertKV kvs key v).lookup other = kvs.lookup other
  | [] => by
    have hb : (other == key) = false := by simpa using hne
    simp [Context.insertKV, List.lookup, hb]
  | (k, w) :: rest => by
    by_cases h : k = key
    · subst h
      have hb : (other == k) = false := by simpa using hne
      simp [Context.insertKV, List.lookup, hb]
    · simp only [Context.insertKV, h, if_false, List.lookup]
      rw [lookup_insertKV_other key other v hne rest]

theorem pushBackAt_shape (kvs : List (String × Context)) (xs : List Context) (v : Context)
    (h : ShapeHolds kvs xs) :
    ∃ kvs1, (Context.map kvs).pushBackAt "shape" v = .ok (.map kvs1) ∧
      kvs1.lookup "shape" = some (.array (xs ++ [v])) ∧
      ∀ other, other ≠ "shape" → kvs1.lookup other = kvs.lookup other := by
  refine ⟨Context.insertKV kvs "shape" (.array (xs ++ [v])), ?_, lookup_insertKV_self _ _ _,
    fun other hne => lookup_insertKV_other _ _ _ hne _⟩
  rcases h with h | ⟨h | h, rfl⟩ <;>
    simp [Context.pushBackAt, Context.getOrInsertByKey, h, Context.push_back, Context.setKey,
      bind, Except.bind]

theorem pushShape_shape : ∀ (sizes : List Int) (kvs : List (String × Context))
    (xs : List Context), ShapeHolds kvs xs →
    ∃ kvs1, pushShape sizes (.map kvs) = .ok (.map kvs1) ∧
      ShapeHolds kvs1 (xs ++ sizes.map Context.long) ∧
      ∀ other, other ≠ "shape" → kvs1.lookup other = kvs.lookup other
  | [], kvs, xs, h => ⟨kvs, rfl, by simpa using h, fun _ _ => rfl⟩
  | s :: rest, kvs, xs, h => by
    obtain ⟨kvs1, h1, h2, h3⟩ := pushBackAt_shape kvs xs (.long s) h
    obtain ⟨kvs2, h4, h5, h6⟩ := pushShape_shape rest kvs1 (xs ++ [.long s]) (Or.inl h2)
    refine ⟨kvs2, ?_, ?_, fun other hne => (h6 other hne).trans (h3 other hne)⟩
    · simp only [pushShape, h1, bind, Except.bind]
      exact h4
    · simpa using h5

/-! ## Theorem on the marshaller -/

/-- C10, marshaller shape: on a fresh (empty) context and an image with dimension sizes
`s_0 .. s_{d-1}`, `c` channels and a depth that the table `CvTypeToStr` maps to `tag`,
`convertMat2BSM` returns a context whose `shape` is exactly `[s_0, ..., s_{d-1}, c]`
(length `d + 1`, channel count last) and whose `dtype` is `tag`; for an 8-bit-unsigned
3-channel image of height `H` and width `W` that is `[H, W, 3]` and `"uint8_t"`; for a depth
outside the table the call throws and returns no context. -/
theorem convertMat2BSM_shape (img : Mat) (copy : Bool) :
    (∀ tag, CvTypeToStr.lookup img.depth = some tag →
      ∃ ctx, convertMat2BSM .null img copy = .ok ctx ∧
        ctx.getByKey "shape"
          = .ok (.array (img.size.map Context.long ++ [Context.long img.channels])) ∧
        (img.size.map Context.long ++ [Context.long img.channels]).length = img.dims + 1 ∧
        ctx.getByKey "dtype" = .ok (.string tag)) ∧
    (CvTypeToStr.lookup img.depth = none →
      ∃ e, convertMat2BSM .null img copy = .error e) ∧
    (∀ (H W : Int) (continuous : Bool) (data : List Nat),
      ∃ ctx, convertMat2BSM .null ⟨[H, W], CV_8U, 3, continuous, data⟩ copy = .ok ctx ∧
        ctx.getByKey "shape" = .ok (.array [.long H, .long W, .long 3]) ∧
        ctx.getByKey "dtype" = .ok (.string "uint8_t")) := by
  have key : ∀ (m : Mat) (tag : String), CvTypeToStr.lookup m.depth = some tag →
      ∃ ctx, convertMat2BSM .null m copy = .ok ctx ∧
        ctx.getByKey "shape"
          = .ok (.array (m.size.map Context.long ++ [Context.long m.channels])) ∧
        ctx.getByKey "dtype" = .ok (.string tag) := by
    intro m tag htag
    have hdepth : (if m.isContinuous then m else m.clone).depth = m.depth := by
      split <;> rfl
    have hsize : (if m.isContinuous then m else m.clone).size = m.size := by
      split <;> rfl
    have hch : (if m.isContinuous then m else m.clone).channels = m.channels := by
      split <;> rfl
    obtain ⟨kvs1, h1, h2, h3⟩ := pushShape_shape m.size
      [("format", .string "NDARRAY"),
        ("blob", .dataPtr (if m.isContinuous then m else m.clone).data
          (if (copy || !m.isContinuous) = true then
            (if m.isContinuous then m else m.clone).total *
              (if m.isContinuous then m else m.clone).elemSize
          else 0)),
        ("dtype", .string tag)] []
      (Or.inr ⟨Or.inl (by simp [List.lookup]), rfl⟩)
    obtain ⟨kvs2, h4, h5, h6⟩ := pushBackAt_shape kvs1 _ (.long m.channels) h2
    refine ⟨.map kvs2, ?_, ?_, ?_⟩
    · simp only [convertMat2BSM, Context.setKey, Context.insertKV, CvTypeToStr_at, hdepth,
        htag, hsize, hch, bind, Except.bind]
      simp only [String.reduceEq, if_false]
      rw [h1]
      exact h4
    · simp only [Context.getByKey, h5]
      simp
    · have : kvs2.lookup "dtype" = some (.string tag) := by
        rw [h6 "dtype" (by decide), h3 "dtype" (by decide)]
        simp [List.lookup]
      simp only [Context.getByKey, this]
  refine ⟨fun tag htag => ?_, fun hnone => ?_, fun H W continuous data => ?_⟩
  · obtain ⟨ctx, h1, h2, h3⟩ := key img tag htag
    exact ⟨ctx, h1, h2, by simp [Mat.dims], h3⟩
  · have hdepth : (if img.isContinuous then img else img.clone).depth = img.depth := by
      split <;> rfl
    refine ⟨.std "map::at", ?_⟩
    simp only [convertMat2BSM, Context.setKey, Context.insertKV, CvTypeToStr_at, hdepth,
      hnone, bind, Except.bind]
  · obtain ⟨ctx, h1, h2, h3⟩ := key ⟨[H, W], CV_8U, 3, continuous, data⟩ "uint8_t" rfl
    exact ⟨ctx, h1, by simpa using h2, h3⟩

theorem convertMat2BSM_shape_witness :
    CvTypeToStr.lookup exampleImage.depth = some "uint8_t" ∧
      ∃ ctx, convertMat2BSM .null exampleImage false = .ok ctx ∧
        ctx.getByKey "shape"
          = .ok (.array (exampleImage.size.map Context.long ++
              [Context.long exampleImage.channels])) ∧
        (exampleImage.size.map Context.long ++
            [Context.long exampleImage.channels]).length = exampleImage.dims + 1 ∧
        ctx.getByKey "dtype" = .ok (.string "uint8_t") :=
  ⟨by decide, (convertMat2BSM_shape exampleImage false).1 "uint8_t" (by decide)⟩

/-! ### Lemmas on the writer -/

theorem eval_map_bind {α β γ : Type} (r : Except Error α) (f : α → β) (g : β → CsvM γ) :
    (CsvM.eval (Except.map f r) >>= g) = (CsvM.eval r >>= fun a => g (f a)) := by
  funext csv
  cases r <;> rfl

open CsvM in
theorem toCSV_eq_writeCells (env : FloatEnv) (ioData : Context) :
    toCSV env ioData = (do
      let obj ← eval (ioData.getByKey "objects")
      let quality ← eval (do (← obj.getByIndex 0).getOrInsertByKey "quality")
      writeCells (cellReads env obj quality)) := by
  simp only [toCSV, cellReads, writeCells, eval_map_bind]


theorem writeCells_ok (csv : Stream) :
    ∀ (t : List Char) (texts : List (List Char)),
      writeCells ((t :: texts).map Except.ok) csv
        = (.ok (), csv ++ List.intercalate [','] (t :: texts) ++ ['\n'])
  | t, [] => by
    simp [writeCells, bind, CsvM.bind, CsvM.eval, CsvM.put, List.intercalate]
  | t, u :: texts => by
    have ih := writeCells_ok (csv ++ t ++ [',']) u texts
    simp only [List.map_cons] at ih
    simp only [List.map_cons, writeCells, bind, CsvM.bind, CsvM.eval, CsvM.put, ih]
    simp [List.intercalate, List.intersperse]

theorem digitChar_plain (d : Nat) (h : d < 10) :
    Nat.digitChar d ≠ ',' ∧ Nat.digitChar d ≠ '\n' := by
  interval_cases d <;> decide

theorem toDigitsCore_plain : ∀ (fuel n : Nat) (ds : List Char),
    (∀ c ∈ ds, c ≠ ',' ∧ c ≠ '\n') →
      ∀ c ∈ Nat.toDigitsCore 10 fuel n ds, c ≠ ',' ∧ c ≠ '\n'
  | 0, _, ds, h => by simpa [Nat.toDigitsCore] using h
  | fuel + 1, n, ds, h => by
    have hd := digitChar_plain (n % 10) (Nat.mod_lt _ (by decide))
    have hcons : ∀ c ∈ Nat.digitChar (n % 10) :: ds, c ≠ ',' ∧ c ≠ '\n' := by
      intro c hc
      rcases List.mem_cons.mp hc with rfl | hc
      · exact hd
      · exact h c hc
    simp only [Nat.toDigitsCore]
    split
    · exact hcons
    · exact toDigitsCore_plain fuel (n / 10) _ hcons

theorem showInt_plain (z : Int) : ∀ c ∈ showInt z, c ≠ ',' ∧ c ≠ '\n' := by
  have hnat : ∀ n : Nat, ∀ c ∈ Nat.toDigits 10 n, c ≠ ',' ∧ c ≠ '\n' := fun n =>
    toDigitsCore_plain (n + 1) n [] (by simp)
  intro c hc
  unfold showInt at hc
  split at hc
  · rcases List.mem_cons.mp hc with rfl | hc
    · decide
    · exact hnat _ c hc
  · exact hnat _ c hc

theorem splitCommas_plain : ∀ t : List Char, ',' ∉ t → splitCommas t = [t]
  | [], _ => rfl
  | c :: t, h => by
    have hc : c ≠ ',' := fun e => h (e ▸ List.mem_cons_self _ _)
    have ht : ',' ∉ t := fun hm => h (List.mem_cons_of_mem _ hm)
    simp [splitCommas, hc, splitCommas_plain t ht]

theorem splitCommas_append_comma (rest : List Char) :
    ∀ t : List Char, ',' ∉ t → splitCommas (t ++ ',' :: rest) = t :: splitCommas rest
  | [], _ => by simp [splitCommas]
  | c :: t, h => by
    have hc : c ≠ ',' := fun e => h (e ▸ List.mem_cons_self _ _)
    have ht : ',' ∉ t := fun hm => h (List.mem_cons_of_mem _ hm)
    simp [splitCommas, hc, splitCommas_append_comma rest t ht]

theorem splitCommas_intercalate :
    ∀ (t : List Char) (texts : List (List Char)), (∀ u ∈ t :: texts, ',' ∉ u) →
      splitCommas (List.intercalate [','] (t :: texts)) = t :: texts
  | t, [], h => by
    simpa [List.intercalate] using splitCommas_plain t (h t (List.mem_cons_self _ _))
  | t, u :: texts, h => by
    have ih := splitCommas_intercalate u texts (fun w hw => h w (List.mem_cons_of_mem _ hw))
    have ht := h t (List.mem_cons_self _ _)
    have e : List.intercalate [','] (t :: u :: texts)
        = t ++ ',' :: List.intercalate [','] (u :: texts) := by
      simp [List.intercalate, List.intersperse]
    rw [e, splitCommas_append_comma _ t ht, ih]

theorem castInt_bounds (x : ℚ) (h0 : 0 ≤ x) (h1 : x ≤ 100) :
    0 ≤ castInt x ∧ castInt x ≤ 100 := by
  have hnum : 0 ≤ x.num := Rat.num_nonneg.mpr h0
  have hfloor : castInt x = ⌊x⌋ := by
    unfold castInt
    rw [Int.tdiv_eq_ediv hnum (by exact_mod_cast Nat.zero_le _), Rat.floor_def]
  rw [hfloor]
  constructor
  · exact Int.floor_nonneg.mpr h0
  · have : ⌊x⌋ ≤ ⌊(100 : ℚ)⌋ := Int.floor_le_floor h1
    simpa using this


theorem not_mem_intercalate (c : Char) (hc : c ≠ ',') :
    ∀ (t : List Char) (texts : List (List Char)), (∀ u ∈ t :: texts, c ∉ u) →
      c ∉ List.intercalate [','] (t :: texts)
  | t, [], h => by
    simpa [List.intercalate] using h t (List.mem_cons_self _ _)
  | t, u :: texts, h => by
    have ih := not_mem_intercalate c hc u texts (fun w hw => h w (List.mem_cons_of_mem _ hw))
    have ht := h t (List.mem_cons_self _ _)
    have e : List.intercalate [','] (t :: u :: texts)
        = t ++ ',' :: List.intercalate [','] (u :: texts) := by
      simp [List.intercalate, List.intersperse]
    rw [e]
    intro hm
    rcases List.mem_append.mp hm with hm | hm
    · exact ht hm
    · rcases List.mem_cons.mp hm with hm | hm
      · exact hc hm
      · exact ih hm

theorem rowCells_plain (env : FloatEnv)
    (hshow : ∀ x, ∀ c ∈ env.showDouble x, c ≠ ',' ∧ c ≠ '\n') (r : QualityRecord) :
    ∀ u ∈ rowCells env r, ∀ c ∈ u, c ≠ ',' ∧ c ≠ '\n' := by
  intro u hu
  simp only [rowCells, List.mem_cons, List.mem_singleton, List.not_mem_nil, or_false] at hu
  rcases hu with h | h | h | h | h | h | h | h | h | h | h | h | h | h | h | h | h | h <;>
    subst h <;> first
      | exact hshow _
      | exact showInt_plain _

theorem cellReads_of_carries (env : FloatEnv) (r : QualityRecord)
    (objs : List (String × Context)) (rest : List Context) (qkvs : List (String × Context))
    (h : objs.lookup "confidence" = some (.double r.confidence) ∧
      qkvs.lookup "total_score" = some (.double r.total_score) ∧
      qkvs.lookup "is_sharp" = some (.bool r.is_sharp) ∧
      qkvs.lookup "sharpness_score" = some (.double r.sharpness_score) ∧
      qkvs.lookup "is_evenly_illuminated" = some (.bool r.is_evenly_illuminated) ∧
      qkvs.lookup "no_flare" = some (.bool r.no_flare) ∧
      qkvs.lookup "is_left_eye_opened" = some (.bool r.is_left_eye_opened) ∧
      qkvs.lookup "is_right_eye_opened" = some (.bool r.is_right_eye_opened) ∧
      qkvs.lookup "is_rotation_acceptable" = some (.bool r.is_rotation_acceptable) ∧
      qkvs.lookup "not_masked" = some (.bool r.not_masked) ∧
      qkvs.lookup "is_neutral_emotion" = some (.bool r.is_neutral_emotion) ∧
      qkvs.lookup "is_eyes_distance_acceptable"
        = some (.bool r.is_eyes_distance_acceptable) ∧
      qkvs.lookup "eyes_distance" = some (.long r.eyes_distance) ∧
      qkvs.lookup "is_margins_acceptable" = some (.bool r.is_margins_acceptable) ∧
      qkvs.lookup "is_not_noisy" = some (.bool r.is_not_noisy) ∧
      qkvs.lookup "has_watermark" = some (.bool r.has_watermark) ∧
      qkvs.lookup "dynamic_range_score" = some (.double r.dynamic_range_score) ∧
      qkvs.lookup "is_dynamic_range_acceptable"
        = some (.bool r.is_dynamic_range_acceptable)) :
    cellReads env (.array (.map objs :: rest)) (.map qkvs)
      = (rowCells env r).map Except.ok := by
  obtain ⟨h1, h2, h3, h4, h5, h6, h7, h8, h9, h10, h11, h12, h13, h14, h15, h16, h17, h18⟩ := h
  simp only [cellReads, rowCells, Context.getByIndex, Context.getOrInsertByKey,
    Context.getDouble, Context.getBool, Context.getLong, List.getElem?_cons_zero,
    h1, h2, h3, h4, h5, h6, h7, h8, h9, h10, h11, h12, h13, h14, h15, h16, h17, h18,
    Option.getD_some, bind, Except.bind, Except.map, List.map_cons, List.map_nil]

theorem toCSV_of_reads (env : FloatEnv) (ioData obj quality : Context) (csv : Stream)
    (hobj : ioData.getByKey "objects" = .ok obj)
    (hq : (do (← obj.getByIndex 0).getOrInsertByKey "quality") = Except.ok quality) :
    toCSV env ioData csv = writeCells (cellReads env obj quality) csv := by
  rw [toCSV_eq_writeCells]
  simp only [bind, CsvM.bind, CsvM.eval] at hq ⊢
  simp only [hobj, hq]

theorem showPercent_bounds (env : FloatEnv) (hmono : Monotone env.fl) (h0 : env.fl 0 = 0)
    (h100 : env.fl 100 = 100) (x : ℚ) (hx0 : 0 ≤ x) (hx1 : x ≤ 1) :
    0 ≤ castInt (env.fl (x * 100)) ∧ castInt (env.fl (x * 100)) ≤ 100 := by
  apply castInt_bounds
  · have := hmono (show (0 : ℚ) ≤ x * 100 by positivity)
    rwa [h0] at this
  · have := hmono (show x * 100 ≤ (100 : ℚ) by linarith)
    rwa [h100] at this

theorem toCSV_of_carries (env : FloatEnv) (csv : Stream) (ioData : Context)
    (r : QualityRecord) (hc : Carries ioData r) :
    toCSV env ioData csv
      = (.ok (), csv ++ List.intercalate [','] (rowCells env r) ++ ['\n']) := by
  obtain ⟨objs, rest, qkvs, hobj, hq, hfields⟩ := hc
  rw [toCSV_of_reads env ioData _ (.map qkvs) csv hobj
      (by simp [Context.getByIndex, Context.getOrInsertByKey, hq, bind, Except.bind]),
    cellReads_of_carries env r objs rest qkvs hfields]
  exact writeCells_ok csv _ _

theorem carries_contextOf (r : QualityRecord) : Carries (contextOf r) r :=
  ⟨_, _, _, rfl, rfl, rfl, rfl, rfl, rfl, rfl, rfl, rfl, rfl, rfl, rfl, rfl, rfl, rfl, rfl,
    rfl, rfl, rfl, rfl⟩

theorem rowCells_example :
    rowCells exampleEnv exampleRecord
      = ["1".toList, "50".toList, "1".toList, "75".toList, "1".toList, "1".toList,
          "1".toList, "1".toList, "1".toList, "1".toList, "1".toList, "1".toList,
          "64".toList, "1".toList, "1".toList, "0".toList, "100".toList, "1".toList] := by
  have h1 : castInt ((1 / 2 : ℚ) * 100) = 50 := by norm_num [castInt]
  have h2 : castInt ((3 / 4 : ℚ) * 100) = 75 := by norm_num [castInt]
  have h3 : castInt ((1 : ℚ) * 100) = 100 := by norm_num [castInt]
  have h4 : castInt (1 : ℚ) = 1 := by decide
  simp only [rowCells, showPercent, exampleEnv, exampleRecord, id, h1, h2, h3, h4]
  decide

/-! ## Theorems on the writer -/

/-- C7, row format: for a host whose rounding `fl` is monotone and exact at 0 and 100 and
whose text for a `double` has no comma or newline, and for every context whose first
detected object carries the 18 read fields with the three scores in `[0, 1]`, `toCSV`
appends exactly one line, the 18 texts of `rowCells` separated by commas and ended by a
newline: splitting the line at its commas gives back these 18 values, each score is written
as `static_cast<int>(score * 100)`, an integer from 0 to 100 (truncation toward zero), each
of the 13 flags as `1` or `0`, and `eyes_distance` as an integer. -/
theorem toCSV_row (env : FloatEnv) (hmono : Monotone env.fl) (h0 : env.fl 0 = 0)
    (h100 : env.fl 100 = 100) (hshow : ∀ x, ∀ c ∈ env.showDouble x, c ≠ ',' ∧ c ≠ '\n')
    (csv : Stream) (ioData : Context) (r : QualityRecord) (hc : Carries ioData r)
    (ht : 0 ≤ r.total_score ∧ r.total_score ≤ 1)
    (hs : 0 ≤ r.sharpness_score ∧ r.sharpness_score ≤ 1)
    (hd : 0 ≤ r.dynamic_range_score ∧ r.dynamic_range_score ≤ 1) :
    toCSV env ioData csv
        = (.ok (), csv ++ List.intercalate [','] (rowCells env r) ++ ['\n']) ∧
      splitCommas (List.intercalate [','] (rowCells env r)) = rowCells env r ∧
      (rowCells env r).length = 18 ∧
      '\n' ∉ List.intercalate [','] (rowCells env r) ∧
      (0 ≤ castInt (env.fl (r.total_score * 100)) ∧
        castInt (env.fl (r.total_score * 100)) ≤ 100) ∧
      (0 ≤ castInt (env.fl (r.sharpness_score * 100)) ∧
        castInt (env.fl (r.sharpness_score * 100)) ≤ 100) ∧
      (0 ≤ castInt (env.fl (r.dynamic_range_score * 100)) ∧
        castInt (env.fl (r.dynamic_range_score * 100)) ≤ 100) ∧
      (∀ b : Bool, showFlag b = if b then ['1'] else ['0']) := by
  have hplain := rowCells_plain env hshow r
  refine ⟨toCSV_of_carries env csv ioData r hc, ?_, rfl, ?_, showPercent_bounds env hmono h0 h100 _ ht.1 ht.2,
    showPercent_bounds env hmono h0 h100 _ hs.1 hs.2,
    showPercent_bounds env hmono h0 h100 _ hd.1 hd.2, by decide⟩
  · exact splitCommas_intercalate _ _ (fun u hu hm => (hplain u hu ',' hm).1 rfl)
  · exact not_mem_intercalate '\n' (by decide) _ _ (fun u hu hm => (hplain u hu '\n' hm).2 rfl)

theorem toCSV_row_witness :
    toCSV exampleEnv (contextOf exampleRecord) csvHeader
        = (.ok (), csvHeader ++ List.intercalate [','] (rowCells exampleEnv exampleRecord)
            ++ ['\n']) ∧
      splitCommas (List.intercalate [','] (rowCells exampleEnv exampleRecord))
        = rowCells exampleEnv exampleRecord :=
  have h := toCSV_row exampleEnv monotone_id rfl rfl (fun x => showInt_plain (castInt x))
    csvHeader (contextOf exampleRecord) exampleRecord (carries_contextOf exampleRecord)
    (by norm_num [exampleRecord]) (by norm_num [exampleRecord]) (by norm_num [exampleRecord])
  ⟨h.1, h.2.1⟩

set_option maxRecDepth 100000 in
/-- C8, at the failing input: the header line written at lines 146-165 has 19 names, the
sixth being `illuminationScore`, while the row `toCSV` writes for a context carrying all
the read fields has 18 values, so from the sixth column on a value stands under the name
of the column before its own (the `no_flare` flag under `illuminationScore`). -/
theorem csvHeader_row_mismatch :
    (splitCommas csvHeader.dropLast).length = 19 ∧
      (splitCommas csvHeader.dropLast)[5]? = some "illuminationScore".toList ∧
      (splitCommas csvHeader.dropLast)[6]? = some "noFlare".toList ∧
      toCSV exampleEnv (contextOf exampleRecord) csvHeader
        = (.ok (), csvHeader ++ "1,50,1,75,1,1,1,1,1,1,1,1,64,1,1,0,100,1\n".toList) ∧
      (splitCommas "1,50,1,75,1,1,1,1,1,1,1,1,64,1,1,0,100,1".toList).length = 18 ∧
      (rowCells exampleEnv exampleRecord)[5]? = some (showFlag exampleRecord.no_flare) := by
  refine ⟨by decide, by decide, by decide, ?_, by decide, by rfl⟩
  rw [toCSV_of_carries exampleEnv csvHeader _ exampleRecord (carries_contextOf exampleRecord),
    List.append_assoc, rowCells_example]
  rfl

/-! ## Theorems on the pipeline loop -/

/-- C6, counterexample: with an engine whose detection stage reports one object and whose
fitting stage throws, the pass calls the detector and the fitter only: the
quality-assessment stage is not invoked and no row is written, although the
detected-objects sequence is not empty. -/
theorem processImage_fitter_throws :
    ∃ ioData detected objects,
      imageContext exampleImage = .ok ioData ∧
      fitterFails.detectorBlock ioData = .ok detected ∧
      detected.getOrInsertByKey "objects" = .ok objects ∧ objects.size = 1 ∧
      (processImage exampleEnv fitterFails exampleImage csvHeader).calls
        = [.detector ioData, .fitter detected] ∧
      (processImage exampleEnv fitterFails exampleImage csvHeader).csv = csvHeader ∧
      (processImage exampleEnv fitterFails exampleImage csvHeader).outcome
        = .error (.pbio "fitter failed") :=
  ⟨_, _, _, rfl, rfl, rfl, rfl, rfl, rfl, rfl⟩

/-- C6, amended: for every image whose context is built and every engine whose detection
stage returns, if the detected-objects sequence is empty the pass makes no other call and
appends nothing; if it is not empty and the fitting and the quality-assessment stage both
return, the pass calls fitting, then quality assessment, then `toCSV`, each once and each
on the context the call before it left, and what is appended is what `toCSV` writes,
exactly one row when the context carries the 18 fields. If the fitting stage throws,
quality assessment and `toCSV` are not called; if quality assessment throws, `toCSV` is not
called; in both cases nothing is appended. -/
theorem processImage_stages (env : FloatEnv) (engine : Engine) (input_image : Mat)
    (csv : Stream) (ioData detected objects : Context)
    (hctx : imageContext input_image = .ok ioData)
    (hdet : engine.detectorBlock ioData = .ok detected)
    (hobj : detected.getOrInsertByKey "objects" = .ok objects) :
    (objects.size = 0 →
      (processImage env engine input_image csv).calls = [.detector ioData] ∧
      (processImage env engine input_image csv).csv = csv ∧
      (processImage env engine input_image csv).outcome = .ok ()) ∧
    (0 < objects.size → ∀ fitted assessed, engine.fitterBlock detected = .ok fitted →
      engine.qualityBlock fitted = .ok assessed →
      (processImage env engine input_image csv).calls
        = [.detector ioData, .fitter detected, .quality fitted, .toCSV assessed] ∧
      (processImage env engine input_image csv).csv = (toCSV env assessed csv).2 ∧
      (processImage env engine input_image csv).outcome = (toCSV env assessed csv).1 ∧
      ∀ r, Carries assessed r →
        (processImage env engine input_image csv).csv
          = csv ++ List.intercalate [','] (rowCells env r) ++ ['\n'] ∧
        (processImage env engine input_image csv).outcome = .ok ()) ∧
    (0 < objects.size → ∀ e, engine.fitterBlock detected = .error e →
      (processImage env engine input_image csv).calls
        = [.detector ioData, .fitter detected] ∧
      (processImage env engine input_image csv).csv = csv ∧
      (processImage env engine input_image csv).outcome = .error e) ∧
    (0 < objects.size → ∀ fitted e, engine.fitterBlock detected = .ok fitted →
      engine.qualityBlock fitted = .error e →
      (processImage env engine input_image csv).calls
        = [.detector ioData, .fitter detected, .quality fitted] ∧
      (processImage env engine input_image csv).csv = csv ∧
      (processImage env engine input_image csv).outcome = .error e) := by
  refine ⟨fun h0 => ?_, fun hpos fitted assessed hfit hq => ?_, fun hpos e hfit => ?_,
    fun hpos fitted e hfit hq => ?_⟩
  · have hn : ¬ objects.size > 0 := by omega
    simp only [processImage, hctx, hdet, hobj, hn, if_false, and_self]
  · have hrun : processImage env engine input_image csv
        = ⟨[.detector ioData, .fitter detected, .quality fitted, .toCSV assessed],
            (toCSV env assessed csv).2, (toCSV env assessed csv).1⟩ := by
      simp only [processImage, hctx, hdet, hobj, hpos, gt_iff_lt, if_true, hfit, hq]
    refine ⟨by rw [hrun], by rw [hrun], by rw [hrun], fun r hr => ?_⟩
    rw [hrun, toCSV_of_carries env csv assessed r hr]
    exact ⟨rfl, rfl⟩
  · simp only [processImage, hctx, hdet, hobj, hpos, gt_iff_lt, if_true, hfit, and_self]
  · simp only [processImage, hctx, hdet, hobj, hpos, gt_iff_lt, if_true, hfit, hq, and_self]

theorem processImage_stages_witness :
    (∃ ioData detected,
      imageContext exampleImage = .ok ioData ∧
      exampleEngine.detectorBlock ioData = .ok detected ∧
      (processImage exampleEnv exampleEngine exampleImage csvHeader).calls
        = [.detector ioData, .fitter detected, .quality detected,
            .toCSV (contextOf exampleRecord)] ∧
      (processImage exampleEnv exampleEngine exampleImage csvHeader).csv
        = csvHeader ++ List.intercalate [','] (rowCells exampleEnv exampleRecord)
            ++ ['\n']) ∧
    ∃ ioData,
      imageContext exampleImage = .ok ioData ∧
      (processImage exampleEnv noFace exampleImage csvHeader).calls = [.detector ioData] ∧
      (processImage exampleEnv noFace exampleImage csvHeader).csv = csvHeader :=
  have h := (processImage_stages exampleEnv exampleEngine exampleImage csvHeader _ _
    (.array [.map []]) rfl rfl rfl).2.1 (by decide) _ (contextOf exampleRecord) rfl rfl
  have h0 := (processImage_stages exampleEnv noFace exampleImage csvHeader _ _
    (.array []) rfl rfl rfl).1 rfl
  ⟨⟨_, _, rfl, rfl, h.1, (h.2.2.2 exampleRecord (carries_contextOf exampleRecord)).1⟩,
    ⟨_, rfl, h0.1, h0.2.1⟩⟩

/-! ### Lemmas on the order of evaluation -/

end QualityScan
